import Mathlib

set_option maxHeartbeats 1000000

/- Verification development for the rag-memory MCP server.
   The definitions below embed the tool dispatch layer of src/index.ts and the
   companion lazy server in src/unnamed/part_002, together with models, built
   from the specification, of the database adapter operations whose
   implementation files are not among the sources. -/

/-- Arguments accepted by the storeDocument tool schema (storeDocumentSchema in
the rag tools module): id, content, optional metadata, optional maxTokens and
overlap. Metadata is abstracted as an opaque string. -/
structure StoreDocumentArgs where
  id : String
  content : String
  metadata : Option String
  maxTokens : Option Nat
  overlap : Option Nat
deriving DecidableEq

/-- The call received by the database adapter: RAGKnowledgeGraphManager.storeDocument
in src/index.ts (lines 120-123) receives and forwards exactly id, content and
metadata. -/
structure StoreDocumentForward where
  id : String
  content : String
  metadata : String
deriving DecidableEq

/-- From src/index.ts, case storeDocument of the CallToolRequestSchema handler
(lines 373-375): the handler calls ragKgManager.storeDocument with the validated
id, content and metadata (defaulting to the empty map); the validated maxTokens
and overlap fields are never read. -/
def storeDocumentToolCall (a : StoreDocumentArgs) : StoreDocumentForward :=
  StoreDocumentForward.mk a.id a.content (a.metadata.getD "")

/-- A ranked search result item: an entity or a document chunk, with its id and
similarity score. -/
structure RankedItem where
  isEntity : Bool
  id : String
  score : ℚ
deriving DecidableEq

/-- Lexicographic comparison on character lists, used for deterministic
tie-breaking by id. -/
def strLeB : List Char → List Char → Bool
  | [], _ => true
  | _ :: _, [] => false
  | a :: as, b :: bs => if a = b then strLeB as bs else decide (a < b)

/-- Ranking order on results: descending score, ties broken by ascending id. -/
def rankBefore (a b : RankedItem) : Bool :=
  if a.score = b.score then strLeB a.id.data b.id.data else decide (b.score < a.score)

def insertRanked (a : RankedItem) : List RankedItem → List RankedItem
  | [] => [a]
  | b :: l => if rankBefore a b then a :: b :: l else b :: insertRanked a l

/-- Insertion sort by rankBefore. -/
def sortRanked : List RankedItem → List RankedItem
  | [] => []
  | a :: l => insertRanked a (sortRanked l)

/-- Modelled from the spec: the store state visible to search - entity ids,
chunk ids, directed relations between entities, and entity-to-chunk link rows.
The database adapter implementing the store is not among the sources. -/
structure KB where
  entities : List String
  chunks : List String
  relations : List (String × String)
  links : List (String × String)

/-- Modelled from the spec: the options object received by the adapter
hybridSearch; the include flags default to true when the caller omits them. -/
structure HybridOptions where
  limit : Nat
  useGraph : Bool
  includeEntities : Bool
  includeDocuments : Bool

/-- Modelled from the spec: the fixed graph-expansion decay factor, a tunable
constant smaller than 1. -/
def decayFactor : ℚ := 1 / 2

/-- Modelled from the spec: the candidate pool filtered by the include flags;
sim gives the cosine similarity of the query embedding against the stored item
with a given id. -/
def seedPool (kb : KB) (sim : String → ℚ) (o : HybridOptions) : List RankedItem :=
  (if o.includeEntities then kb.entities.map (fun e => RankedItem.mk true e (sim e)) else [])
    ++ (if o.includeDocuments then kb.chunks.map (fun c => RankedItem.mk false c (sim c)) else [])

/-- Modelled from the spec: the seed set - the top max(limit, 2*limit) items of
the filtered pool by similarity. -/
def seedSet (kb : KB) (sim : String → ℚ) (o : HybridOptions) : List RankedItem :=
  (sortRanked (seedPool kb sim o)).take (max o.limit (2 * o.limit))

/-- Modelled from the spec: one-hop neighbors of an entity along relations in
both directions. -/
def graphNeighbors (kb : KB) (e : String) : List String :=
  ((kb.relations.filter (fun r => r.1 == e)).map (fun r => r.2))
    ++ ((kb.relations.filter (fun r => r.2 == e)).map (fun r => r.1))

/-- Modelled from the spec: graph expansion - each neighbor of a seed entity not
already seeded enters with the parent score times the decay factor, and so do
chunks linked to seed entities. -/
def expandSeeds (kb : KB) (seeds : List RankedItem) : List RankedItem :=
  (seeds.filter (fun s => s.isEntity)).flatMap (fun s =>
      (graphNeighbors kb s.id).filterMap (fun n =>
        if (seeds.map (fun t => t.id)).contains n then none
        else some (RankedItem.mk true n (s.score * decayFactor))))
    ++ (seeds.filter (fun s => s.isEntity)).flatMap (fun s =>
      ((kb.links.filter (fun l => l.1 == s.id)).map (fun l => l.2)).filterMap (fun c =>
        if (seeds.map (fun t => t.id)).contains c then none
        else some (RankedItem.mk false c (s.score * decayFactor))))

/-- Modelled from the spec: hybridSearch in the database adapter - seed by
similarity, optionally expand one hop through the graph, merge, rank by
descending score with ascending-id tie-breaks, truncate to limit. -/
def hybridSearch (kb : KB) (sim : String → ℚ) (o : HybridOptions) : List RankedItem :=
  (sortRanked (if o.useGraph then seedSet kb sim o ++ expandSeeds kb (seedSet kb sim o)
               else seedSet kb sim o)).take o.limit

/-- Arguments accepted by the hybridSearch tool schema
(src/src/tools/graph-query-tools.ts lines 105-111). -/
structure HybridSearchArgs where
  limit : Option Nat
  useGraph : Option Bool
  includeDocuments : Option Bool
  includeEntities : Option Bool
deriving DecidableEq

/-- Models the JavaScript test useGraph !== false from src/index.ts line 388. -/
def jsUseGraph : Option Bool → Bool
  | some false => false
  | _ => true

/-- From src/index.ts, case hybridSearch of the handler (lines 386-389): the
handler reads only limit (default 5) and useGraph and calls the manager, which
passes an options object holding only limit and useGraph to the adapter (line
137); the validated includeDocuments and includeEntities flags are never read,
so the adapter always sees its defaults (true, true). -/
def hybridSearchToolCall (kb : KB) (sim : String → ℚ) (a : HybridSearchArgs) : List RankedItem :=
  hybridSearch kb sim (HybridOptions.mk (a.limit.getD 5) (jsUseGraph a.useGraph) true true)

inductive NodeType
  | entity
  | documentChunk
deriving DecidableEq

/-- Arguments accepted by the searchNodes tool schema
(src/src/tools/graph-query-tools.ts lines 24-28). -/
structure SearchNodesArgs where
  nodeTypesToSearch : Option (List NodeType)
  limit : Option Nat
deriving DecidableEq

/-- Models the JavaScript expression limit or-else 10 from src/index.ts line
366: both undefined and 0 are falsy, so both yield the default. -/
def jsOrDefault : Option Nat → Nat → Nat
  | some n, d => if n = 0 then d else n
  | none, d => d

/-- Modelled from the spec: the adapter searchNodes, whose interface as invoked
from src/index.ts line 112 takes only the query similarity and a limit; it
searches entities and chunks (the schema default: both types) and returns the
top limit by descending similarity, ties broken by ascending id. -/
def searchNodes (kb : KB) (sim : String → ℚ) (limit : Nat) : List RankedItem :=
  (sortRanked
      ((kb.entities.map (fun e => RankedItem.mk true e (sim e)))
        ++ (kb.chunks.map (fun c => RankedItem.mk false c (sim c))))).take limit

/-- From src/index.ts, case searchNodes of the handler (line 366): the handler
forwards only the query and the falsy-defaulted limit; the validated
nodeTypesToSearch field is never read. -/
def searchNodesToolCall (kb : KB) (sim : String → ℚ) (a : SearchNodesArgs) : List RankedItem :=
  searchNodes kb sim (jsOrDefault a.limit 10)

/-- Arguments accepted by the getDetailedContext tool schema
(src/src/tools/graph-query-tools.ts lines 138-141). -/
structure GetDetailedContextArgs where
  chunkId : String
  surroundingChunks : Option Nat
deriving DecidableEq

/-- Context around a chunk: the chunks immediately before, the target, and the
chunks immediately after, in document position order. -/
structure ContextResult where
  before : List String
  target : String
  after : List String
deriving DecidableEq

/-- Modelled from the spec and the tool schema: the adapter getDetailedContext,
whose interface as invoked from src/index.ts line 142 receives the chunk (given
here by the ordered chunk list of its document and the target position) and a
boolean includeSurrounding; when true it returns up to the documented default of
2 chunks on each side, fewer at a document boundary. -/
def getDetailedContext (docChunks : List String) (pos : Nat) (includeSurrounding : Bool) :
    ContextResult :=
  if includeSurrounding then
    ContextResult.mk ((docChunks.take pos).drop (pos - 2)) (docChunks.getD pos "")
      ((docChunks.drop (pos + 1)).take 2)
  else
    ContextResult.mk [] (docChunks.getD pos "") []

/-- From src/index.ts, case getDetailedContext of the handler (line 392): the
handler passes the test includeSurrounding !== false as second argument; the
schema validates only chunkId and surroundingChunks, so includeSurrounding is
always undefined, the adapter always receives true, and the surroundingChunks
count never reaches it. -/
def getDetailedContextToolCall (docChunks : List String) (pos : Nat)
    (_a : GetDetailedContextArgs) : ContextResult :=
  getDetailedContext docChunks pos true

/-- Entity payload accepted by createEntities (src/index.ts Entity interface). -/
structure EntityInput where
  name : String
  entityType : String
  observations : List String
deriving DecidableEq

/-- A stored entity row with its computed embedding (abstracted to a rational). -/
structure EntityRec where
  name : String
  entityType : String
  observations : List String
  embedding : ℚ
deriving DecidableEq

/-- Whether a store already holds an entity with the given name. -/
def hasName (store : List EntityRec) (n : String) : Bool :=
  store.any (fun r => r.name == n)

/-- Modelled from the spec: createEntities - for each candidate, if the name
already exists, skip it (no error, no mutation); otherwise insert it with a
freshly computed embedding; returns the new store and the list of newly created
entities only. The adapter implementation is not among the sources. -/
def createEntities (embedF : EntityInput → ℚ) :
    List EntityRec → List EntityInput → List EntityRec × List EntityRec
  | store, [] => (store, [])
  | store, c :: cs =>
    if hasName store c.name then createEntities embedF store cs
    else
      let r := EntityRec.mk c.name c.entityType c.observations (embedF c)
      let p := createEntities embedF (store ++ [r]) cs
      (p.1, r :: p.2)

/-- State of the connection switch controller: serving an active database, or
fatal with no reachable database (the last successfully activated name is kept,
since getCurrentDatabase always reflects the last completed switch). -/
inductive DbState
  | idle (active : String)
  | fatal (lastActive : String)
deriving DecidableEq

/-- Outcome reported by a switchDatabase call. -/
inductive SwitchOutcome
  | success
  | switchFailure
  | switchFatal
deriving DecidableEq

/-- Modelled from the spec: switchDatabase - env n is true when opening a handle
to database n and running its migrations succeeds. The controller tries the
target; on failure it reopens the previous database and reports SwitchFailure,
and if that recovery also fails it enters the fatal state and reports
SwitchFatal. The PostgreSQL adapter implementing this is not among the
sources. -/
def switchDatabase (env : String → Bool) : DbState → String → DbState × SwitchOutcome
  | DbState.idle old, name =>
    if env name then (DbState.idle name, SwitchOutcome.success)
    else if env old then (DbState.idle old, SwitchOutcome.switchFailure)
    else (DbState.fatal old, SwitchOutcome.switchFatal)
  | DbState.fatal old, _ => (DbState.fatal old, SwitchOutcome.switchFatal)

/-- Modelled from the spec: getCurrentDatabase always reflects the last
successfully completed switch. -/
def getCurrentDatabase : DbState → String
  | DbState.idle a => a
  | DbState.fatal a => a

/-- Environment in which no database can be opened. -/
def envNone : String → Bool := fun _ => false

/-- Environment in which exactly the database db0 can be opened. -/
def envDb0 : String → Bool := fun s => s == "db0"

/-- A registered schema migration, identified by its version. -/
structure MigrationRec where
  version : Nat
deriving DecidableEq

def insertMig (m : MigrationRec) : List MigrationRec → List MigrationRec
  | [] => [m]
  | a :: l => if m.version ≤ a.version then m :: a :: l else a :: insertMig m l

/-- Ascending insertion sort of migrations by version. -/
def sortMigrations : List MigrationRec → List MigrationRec
  | [] => []
  | m :: l => insertMig m (sortMigrations l)

/-- Modelled from the spec: apply, in list order, each migration whose version
exceeds the current recorded version, recording each executed version; returns
the new recorded version and the list of executed (written) versions.
Migrations whose version is not above the recorded one are skipped. -/
def applyPending : List MigrationRec → Nat → Nat × List Nat
  | [], v => (v, [])
  | m :: ms, v =>
    if v < m.version then
      ((applyPending ms m.version).1, m.version :: (applyPending ms m.version).2)
    else applyPending ms v

/-- Modelled from the spec: runMigrations sorts the registered migrations by
ascending version and applies the pending ones; already-applied versions are
skipped. The migration manager implementation is not among the sources. -/
def runMigrations (ms : List MigrationRec) (v : Nat) : Nat × List Nat :=
  applyPending (sortMigrations ms) v

/-- A JavaScript thrown value: an Error instance carrying a message, or any
other thrown value. -/
inductive ThrownValue
  | errorVal (message : String)
  | nonError (payload : String)
deriving DecidableEq

/-- What the tool handler delivers to the transport: a plain content response, a
typed McpError response, or a rethrown raw value. -/
inductive ToolResponse
  | ok (text : String)
  | mcpError (message : String)
  | rethrown (v : ThrownValue)
deriving DecidableEq

/-- Whether pat occurs at the head of msg. -/
def segAtB : List Char → List Char → Bool
  | [], _ => true
  | _ :: _, [] => false
  | a :: as, b :: bs => a == b && segAtB as bs

/-- Whether pat occurs as a contiguous segment of msg. -/
def containsSegB : List Char → List Char → Bool
  | pat, [] => segAtB pat []
  | pat, b :: rest => segAtB pat (b :: rest) || containsSegB pat rest

/-- From src/index.ts, the catch block of the CallToolRequestSchema handler
(lines 419-425): a thrown Error is wrapped into a typed McpError whose message
names the tool; any other thrown value is rethrown unchanged. -/
def mainServerCatch (toolName : String) (exec : Except ThrownValue String) : ToolResponse :=
  match exec with
  | Except.ok r => ToolResponse.ok r
  | Except.error (ThrownValue.errorVal msg) =>
      ToolResponse.mcpError ("Tool " ++ (toolName ++ (" failed: " ++ msg)))
  | Except.error v => ToolResponse.rethrown v

/-- From src/unnamed/part_002, the catch block of the lazy-server
CallToolRequestSchema handler (lines 169-174): a thrown Error is returned as a
plain text content response holding only the error message; any other thrown
value is rethrown unchanged. -/
def lazyServerCatch (_toolName : String) (exec : Except ThrownValue String) : ToolResponse :=
  match exec with
  | Except.ok r => ToolResponse.ok r
  | Except.error (ThrownValue.errorVal msg) => ToolResponse.ok ("Error: " ++ msg)
  | Except.error v => ToolResponse.rethrown v

/-- Server-wide lazy-initialization state from src/index.ts lines 293-295:
the isInitialized flag, whether initializationPromise is non-null, whether that
promise has resolved, and how many initializations have been started. -/
structure SrvState where
  initialized : Bool
  promiseExists : Bool
  promiseResolved : Bool
  startCount : Nat
deriving DecidableEq

/-- Phase of one tool-call task: about to run the ensureInitialized prologue,
awaiting the initialization promise, or past it with its tool body executed. -/
inductive TaskPhase
  | ready
  | waitingInit
  | dispatched
deriving DecidableEq

structure SrvConfig where
  st : SrvState
  tasks : List TaskPhase
deriving DecidableEq

/-- From src/index.ts, ensureInitialized (lines 297-311) and the tool handler
(line 331), at event-loop granularity: each step is one synchronous segment. A
ready task runs the ensureInitialized prologue atomically - it proceeds at once
when initialized, awaits the existing promise when one exists, and otherwise
creates the single promise, bumping the start counter. Initialization
completion resolves the promise and sets the flag in one segment; a waiting
task dispatches its tool body only after resolution. -/
inductive SrvStep : SrvConfig → SrvConfig → Prop
  | runAlreadyInit (c : SrvConfig) (i : Nat) :
      c.tasks[i]? = some TaskPhase.ready →
      c.st.initialized = true →
      SrvStep c (SrvConfig.mk c.st (c.tasks.set i TaskPhase.dispatched))
  | awaitExisting (c : SrvConfig) (i : Nat) :
      c.tasks[i]? = some TaskPhase.ready →
      c.st.initialized = false →
      c.st.promiseExists = true →
      SrvStep c (SrvConfig.mk c.st (c.tasks.set i TaskPhase.waitingInit))
  | startInit (c : SrvConfig) (i : Nat) :
      c.tasks[i]? = some TaskPhase.ready →
      c.st.initialized = false →
      c.st.promiseExists = false →
      SrvStep c (SrvConfig.mk
        (SrvState.mk c.st.initialized true c.st.promiseResolved (c.st.startCount + 1))
        (c.tasks.set i TaskPhase.waitingInit))
  | initCompletes (c : SrvConfig) :
      c.st.promiseExists = true →
      c.st.promiseResolved = false →
      SrvStep c (SrvConfig.mk (SrvState.mk true true true c.st.startCount) c.tasks)
  | wake (c : SrvConfig) (i : Nat) :
      c.tasks[i]? = some TaskPhase.waitingInit →
      c.st.promiseResolved = true →
      SrvStep c (SrvConfig.mk c.st (c.tasks.set i TaskPhase.dispatched))

/-- A fresh process with n pending tool calls and no initialization started. -/
def srvInit (n : Nat) : SrvConfig :=
  SrvConfig.mk (SrvState.mk false false false 0) (List.replicate n TaskPhase.ready)

def SrvReachable : SrvConfig → SrvConfig → Prop := Relation.ReflTransGen SrvStep

/-- Inductive invariant: the start counter tracks the existence of the single
promise, resolution implies a created promise and a completed initialization,
and a task is dispatched or waiting only under the matching server state. -/
def SrvInv (c : SrvConfig) : Prop :=
  (c.st.startCount = if c.st.promiseExists then 1 else 0)
  ∧ (c.st.promiseResolved = true → c.st.promiseExists = true)
  ∧ (c.st.promiseResolved = true → c.st.initialized = true)
  ∧ (∀ t ∈ c.tasks, t = TaskPhase.dispatched → c.st.initialized = true)
  ∧ (∀ t ∈ c.tasks, t = TaskPhase.waitingInit → c.st.promiseExists = true)

/-- Intermediate configurations of a concrete two-call run. -/
def srvA : SrvConfig :=
  SrvConfig.mk (SrvState.mk false true false 1) [TaskPhase.waitingInit, TaskPhase.ready]

def srvB : SrvConfig :=
  SrvConfig.mk (SrvState.mk false true false 1) [TaskPhase.waitingInit, TaskPhase.waitingInit]

def srvC : SrvConfig :=
  SrvConfig.mk (SrvState.mk true true true 1) [TaskPhase.waitingInit, TaskPhase.waitingInit]

def srvD : SrvConfig :=
  SrvConfig.mk (SrvState.mk true true true 1) [TaskPhase.dispatched, TaskPhase.waitingInit]

/-- Concrete store with one entity for the C7 witness. -/
def kbOne : KB := KB.mk ["A"] [] [] []

def simOne : String → ℚ := fun _ => 1

/-- Concrete store with one entity E and one chunk C. -/
def kbEC : KB := KB.mk ["E"] ["C"] [] []

/-- Similarity profile under which the entity E scores highest. -/
def simEnt : String → ℚ := fun s => if s = "E" then 2 else 1

/-- Similarity profile under which the chunk C scores highest. -/
def simChunk : String → ℚ := fun s => if s = "C" then 2 else 1

/-- A five-chunk document, positions 0 through 4. -/
def docFive : List String := ["c0", "c1", "c2", "c3", "c4"]

/- ------------------------------------------------------------------ -/
/- Theorems                                                           -/
/- ------------------------------------------------------------------ -/

theorem mem_insertRanked {x a : RankedItem} {l : List RankedItem} :
    x ∈ insertRanked a l ↔ x = a ∨ x ∈ l := by
  induction l with
  | nil => simp [insertRanked]
  | cons b l ih =>
    simp only [insertRanked]
    split
    · simp [List.mem_cons]
    · simp only [List.mem_cons, ih]
      tauto

theorem mem_sortRanked {x : RankedItem} {l : List RankedItem} :
    x ∈ sortRanked l ↔ x ∈ l := by
  induction l with
  | nil => simp [sortRanked]
  | cons a l ih => simp [sortRanked, mem_insertRanked, ih]

/-- Claim C1: the handler drops the chunking parameters - the call forwarded to
the adapter is the same for every maxTokens and overlap, and in particular the
invalid pair overlap 10, maxTokens 5 is forwarded exactly like the default
valid pair, so no validation error can occur and chunking cannot be governed by
the caller-supplied values. -/
theorem storeDocument_chunking_params_dropped :
    (∀ i c m mt ov mt2 ov2,
        storeDocumentToolCall (StoreDocumentArgs.mk i c m mt ov)
          = storeDocumentToolCall (StoreDocumentArgs.mk i c m mt2 ov2))
    ∧ storeDocumentToolCall (StoreDocumentArgs.mk "d1" "hello world" none (some 5) (some 10))
        = StoreDocumentForward.mk "d1" "hello world" "" :=
  ⟨fun _ _ _ _ _ _ _ => rfl, rfl⟩

/-- Claim C2: the handler drops the include flags - the result is identical
with includeEntities false and true, and on a concrete store an entity still
appears in the output of a call that sets includeEntities to false. -/
theorem hybridSearch_include_flags_dropped :
    hybridSearchToolCall kbEC simEnt (HybridSearchArgs.mk (some 2) (some false) (some true) (some false))
      = hybridSearchToolCall kbEC simEnt (HybridSearchArgs.mk (some 2) (some false) (some true) (some true))
    ∧ (RankedItem.mk true "E" 2)
        ∈ hybridSearchToolCall kbEC simEnt (HybridSearchArgs.mk (some 2) (some false) (some true) (some false)) :=
  ⟨rfl, by decide⟩

/-- Claim C3: the handler drops the nodeTypesToSearch argument - the result is
identical whatever types are requested, and on a concrete store a document
chunk still appears in the output of a call that requested only entities. -/
theorem searchNodes_types_dropped :
    searchNodesToolCall kbEC simChunk (SearchNodesArgs.mk (some [NodeType.entity]) (some 10))
      = searchNodesToolCall kbEC simChunk (SearchNodesArgs.mk (some [NodeType.documentChunk]) (some 10))
    ∧ (RankedItem.mk false "C" 2)
        ∈ searchNodesToolCall kbEC simChunk (SearchNodesArgs.mk (some [NodeType.entity]) (some 10)) :=
  ⟨rfl, by decide⟩

/-- Claim C4: the handler drops the surroundingChunks count - the result is
identical for surrounding count 0 and 7, and with count 0 the result still
carries 2 chunks before the target instead of at most 0. -/
theorem getDetailedContext_surrounding_count_dropped :
    getDetailedContextToolCall docFive 2 (GetDetailedContextArgs.mk "c2" (some 0))
      = getDetailedContextToolCall docFive 2 (GetDetailedContextArgs.mk "c2" (some 7))
    ∧ (getDetailedContextToolCall docFive 2 (GetDetailedContextArgs.mk "c2" (some 0))).before.length = 2 :=
  ⟨rfl, by decide⟩

theorem hasName_append (s t : List EntityRec) (n : String) :
    hasName (s ++ t) n = (hasName s n || hasName t n) := by
  simp [hasName, List.any_append]

theorem createEntities_keeps_hasName (f : EntityInput → ℚ) (cs : List EntityInput) :
    ∀ store n, hasName store n = true → hasName (createEntities f store cs).1 n = true := by
  induction cs with
  | nil => intro store n h; simpa [createEntities] using h
  | cons c cs ih =>
    intro store n h
    by_cases hdup : hasName store c.name = true
    · simpa [createEntities, hdup] using ih store n h
    · have hdup' : hasName store c.name = false := by
        cases hv : hasName store c.name
        · rfl
        · exact absurd hv hdup
      simp only [createEntities, hdup', Bool.false_eq_true, if_false]
      exact ih _ n (by simp [hasName_append, h])

theorem createEntities_covers (f : EntityInput → ℚ) (cs : List EntityInput) :
    ∀ store, ∀ c ∈ cs, hasName (createEntities f store cs).1 c.name = true := by
  induction cs with
  | nil => intro store c hc; exact absurd hc (List.not_mem_nil c)
  | cons a cs ih =>
    intro store c hc
    rcases List.mem_cons.mp hc with h | h
    · subst h
      by_cases hdup : hasName store c.name = true
      · simp only [createEntities, hdup, if_true]
        exact createEntities_keeps_hasName f cs store c.name hdup
      · have hdup' : hasName store c.name = false := by
          cases hv : hasName store c.name
          · rfl
          · exact absurd hv hdup
        simp only [createEntities, hdup', Bool.false_eq_true, if_false]
        refine createEntities_keeps_hasName f cs _ c.name ?_
        simp [hasName_append, hasName]
    · by_cases hdup : hasName store a.name = true
      · simp only [createEntities, hdup, if_true]
        exact ih store c h
      · have hdup' : hasName store a.name = false := by
          cases hv : hasName store a.name
          · rfl
          · exact absurd hv hdup
        simp only [createEntities, hdup', Bool.false_eq_true, if_false]
        exact ih _ c h

theorem createEntities_skips (f : EntityInput → ℚ) :
    ∀ (cs : List EntityInput) (store : List EntityRec),
      (∀ c ∈ cs, hasName store c.name = true) → createEntities f store cs = (store, []) := by
  intro cs
  induction cs with
  | nil => intro store _; rfl
  | cons a cs ih =>
    intro store h
    have ha : hasName store a.name = true := h a (List.mem_cons_self a cs)
    simp only [createEntities, ha, if_true]
    exact ih store (fun c hc => h c (List.mem_cons_of_mem a hc))

/-- Claim C5: createEntities is idempotent - re-running it on its own output
store with the same candidate list leaves the store unchanged and reports zero
creations. -/
theorem createEntities_idempotent (f : EntityInput → ℚ) (store : List EntityRec)
    (cs : List EntityInput) :
    createEntities f (createEntities f store cs).1 cs = ((createEntities f store cs).1, []) :=
  createEntities_skips f cs _ (fun c hc => createEntities_covers f cs store c hc)

/-- Claim C6 counterexample: when the target cannot be opened and reopening the
previous database also fails, the failed switch does not leave the server
operating on the old database - the controller ends in the fatal state and
reports SwitchFatal, not SwitchFailure. -/
theorem switchDatabase_unrecovered_counterexample :
    switchDatabase envNone (DbState.idle "db0") "missing"
        = (DbState.fatal "db0", SwitchOutcome.switchFatal)
    ∧ decide (switchDatabase envNone (DbState.idle "db0") "missing"
        = (DbState.idle "db0", SwitchOutcome.switchFailure)) = false := by
  decide

/-- Claim C6 amended: a failing switchDatabase call whose recovery (reopening
the previous database) succeeds leaves the server idle on the unchanged active
database and reports SwitchFailure. -/
theorem switchDatabase_recovered_preserves_active (env : String → Bool) (old name : String)
    (h1 : env name = false) (h2 : env old = true) :
    switchDatabase env (DbState.idle old) name = (DbState.idle old, SwitchOutcome.switchFailure)
    ∧ getCurrentDatabase (switchDatabase env (DbState.idle old) name).1 = old := by
  simp [switchDatabase, h1, h2, getCurrentDatabase]

/-- Witness for the amended C6: switching to a missing database while db0
stays reachable keeps db0 active and reports SwitchFailure. -/
theorem switchDatabase_recovered_preserves_active_witness :
    switchDatabase envDb0 (DbState.idle "db0") "missing"
        = (DbState.idle "db0", SwitchOutcome.switchFailure)
    ∧ getCurrentDatabase (switchDatabase envDb0 (DbState.idle "db0") "missing").1 = "db0" :=
  switchDatabase_recovered_preserves_active envDb0 "db0" "missing" (by decide) (by decide)

/-- Claim C7: with useGraph false, every returned item belongs to the
direct-similarity seed set - no graph-only node appears. -/
theorem hybridSearch_noGraph_subset_of_seeds (kb : KB) (sim : String → ℚ)
    (limit : Nat) (incE incD : Bool) (x : RankedItem)
    (hx : x ∈ hybridSearch kb sim (HybridOptions.mk limit false incE incD)) :
    x ∈ seedSet kb sim (HybridOptions.mk limit false incE incD) := by
  have hx' : x ∈ (sortRanked (seedSet kb sim (HybridOptions.mk limit false incE incD))).take limit := hx
  exact mem_sortRanked.mp (List.mem_of_mem_take hx')

/-- Witness for C7 at a concrete store and query. -/
theorem hybridSearch_noGraph_subset_of_seeds_witness :
    (RankedItem.mk true "A" 1) ∈ hybridSearch kbOne simOne (HybridOptions.mk 1 false true true)
    ∧ (RankedItem.mk true "A" 1) ∈ seedSet kbOne simOne (HybridOptions.mk 1 false true true) :=
  ⟨by decide,
    hybridSearch_noGraph_subset_of_seeds kbOne simOne 1 true true
      (RankedItem.mk true "A" 1) (by decide)⟩

theorem applyPending_le (ms : List MigrationRec) : ∀ v, v ≤ (applyPending ms v).1 := by
  induction ms with
  | nil => intro v; simp [applyPending]
  | cons m ms ih =>
    intro v
    by_cases h : v < m.version
    · simp only [applyPending, h, if_true]
      exact le_trans (le_of_lt h) (ih m.version)
    · simp only [applyPending, h, if_false]
      exact ih v

theorem applyPending_covers (ms : List MigrationRec) :
    ∀ v, ∀ m ∈ ms, m.version ≤ (applyPending ms v).1 := by
  induction ms with
  | nil => intro v m hm; exact absurd hm (List.not_mem_nil m)
  | cons a ms ih =>
    intro v m hm
    rcases List.mem_cons.mp hm with h | h
    · subst h
      by_cases hv : v < m.version
      · simp only [applyPending, hv, if_true]
        exact applyPending_le ms m.version
      · simp only [applyPending, hv, if_false]
        exact le_trans (Nat.le_of_not_lt hv) (applyPending_le ms v)
    · by_cases hv : v < a.version
      · simp only [applyPending, hv, if_true]
        exact ih a.version m h
      · simp only [applyPending, hv, if_false]
        exact ih v m h

theorem applyPending_skip :
    ∀ (ms : List MigrationRec) (v : Nat),
      (∀ m ∈ ms, m.version ≤ v) → applyPending ms v = (v, []) := by
  intro ms
  induction ms with
  | nil => intro v _; rfl
  | cons a ms ih =>
    intro v h
    have ha : ¬ v < a.version := Nat.not_lt.mpr (h a (List.mem_cons_self a ms))
    simp only [applyPending, ha, if_false]
    exact ih v (fun m hm => h m (List.mem_cons_of_mem a hm))

/-- Claim C8: runMigrations is idempotent - run again from the version its
first run recorded, it executes no migration (zero writes) and leaves the
recorded version unchanged. -/
theorem runMigrations_idempotent (ms : List MigrationRec) (v : Nat) :
    runMigrations ms (runMigrations ms v).1 = ((runMigrations ms v).1, []) :=
  applyPending_skip (sortMigrations ms) _
    (fun m hm => applyPending_covers (sortMigrations ms) v m hm)

theorem segAtB_append (pat post : List Char) : segAtB pat (pat ++ post) = true := by
  induction pat with
  | nil => rfl
  | cons a pat ih => simp [segAtB, ih]

theorem containsSegB_append_left (pat : List Char) :
    ∀ (pre msg : List Char), containsSegB pat msg = true →
      containsSegB pat (pre ++ msg) = true := by
  intro pre
  induction pre with
  | nil => intro msg h; simpa using h
  | cons b pre ih =>
    intro msg h
    have h2 := ih msg h
    simp [containsSegB, h2]

theorem containsSegB_self_append (pat post : List Char) :
    containsSegB pat (pat ++ post) = true := by
  cases pat with
  | nil =>
    cases post with
    | nil => rfl
    | cons b post => simp [containsSegB, segAtB]
  | cons a pat =>
    have h := segAtB_append (a :: pat) post
    simp only [List.cons_append] at h
    simp [containsSegB, h]

theorem containsSegB_of_decomp (pat pre post : List Char) :
    containsSegB pat (pre ++ (pat ++ post)) = true :=
  containsSegB_append_left pat pre _ (containsSegB_self_append pat post)

/-- Claim C9 counterexample: in the lazy server, a tool execution that throws
an Error produces a plain content response holding only the bare error message:
it is not a typed error response and does not mention the tool name. -/
theorem lazyServer_error_response_lacks_tool_name :
    lazyServerCatch "createEntities" (Except.error (ThrownValue.errorVal "boom"))
        = ToolResponse.ok "Error: boom"
    ∧ containsSegB "createEntities".data "Error: boom".data = false :=
  ⟨rfl, by decide⟩

/-- Claim C9 amended: in the main server, a tool execution that throws an Error
is returned as a typed McpError whose message contains the tool name. -/
theorem mainServer_wraps_error_with_tool_name (toolName msg : String) :
    mainServerCatch toolName (Except.error (ThrownValue.errorVal msg))
        = ToolResponse.mcpError ("Tool " ++ (toolName ++ (" failed: " ++ msg)))
    ∧ containsSegB toolName.data ("Tool " ++ (toolName ++ (" failed: " ++ msg))).data = true := by
  refine ⟨rfl, ?_⟩
  have hdata : ("Tool " ++ (toolName ++ (" failed: " ++ msg))).data
      = "Tool ".data ++ (toolName.data ++ (" failed: " ++ msg).data) := rfl
  rw [hdata]
  exact containsSegB_of_decomp toolName.data "Tool ".data (" failed: " ++ msg).data

theorem srvInv_init (n : Nat) : SrvInv (srvInit n) := by
  refine ⟨rfl, ?_, ?_, ?_, ?_⟩
  · intro h; simp [srvInit] at h
  · intro h; simp [srvInit] at h
  · intro t ht heq
    have hr : t = TaskPhase.ready := List.eq_of_mem_replicate ht
    rw [hr] at heq; simp at heq
  · intro t ht heq
    have hr : t = TaskPhase.ready := List.eq_of_mem_replicate ht
    rw [hr] at heq; simp at heq

theorem srvInv_step {c d : SrvConfig} (hs : SrvStep c d) (hi : SrvInv c) : SrvInv d := by
  obtain ⟨hA, hB, hC, hD, hE⟩ := hi
  cases hs with
  | runAlreadyInit i hg hinit =>
    refine ⟨hA, hB, hC, ?_, ?_⟩
    · intro t _ _; exact hinit
    · intro t ht heq
      rcases List.mem_or_eq_of_mem_set ht with h | h
      · exact hE t h heq
      · rw [h] at heq; simp at heq
  | awaitExisting i hg hinit hex =>
    refine ⟨hA, hB, hC, ?_, ?_⟩
    · intro t ht heq
      rcases List.mem_or_eq_of_mem_set ht with h | h
      · exact hD t h heq
      · rw [h] at heq; simp at heq
    · intro t ht heq
      rcases List.mem_or_eq_of_mem_set ht with h | h
      · exact hE t h heq
      · exact hex
  | startInit i hg hinit hex =>
    refine ⟨?_, ?_, ?_, ?_, ?_⟩
    · simp only [hex, if_false] at hA
      simp [hA]
    · intro _; rfl
    · intro hres; exact hC hres
    · intro t ht heq
      rcases List.mem_or_eq_of_mem_set ht with h | h
      · exact hD t h heq
      · rw [h] at heq; simp at heq
    · intro t _ _; rfl
  | initCompletes hex hnres =>
    refine ⟨?_, fun _ => rfl, fun _ => rfl, fun t _ _ => rfl, fun t _ _ => rfl⟩
    simp only [hex, if_true] at hA
    simpa using hA
  | wake i hg hres =>
    refine ⟨hA, hB, hC, ?_, ?_⟩
    · intro t ht heq
      rcases List.mem_or_eq_of_mem_set ht with h | h
      · exact hD t h heq
      · exact hC hres
    · intro t ht heq
      rcases List.mem_or_eq_of_mem_set ht with h | h
      · exact hE t h heq
      · rw [h] at heq; simp at heq

/-- Claim C10: along every interleaved run from a fresh process, at most one
initialization is ever started, and a task reaches its tool body only after
initialization has completed. -/
theorem ensureInitialized_at_most_once (n : Nat) (c : SrvConfig)
    (h : SrvReachable (srvInit n) c) :
    c.st.startCount ≤ 1
    ∧ (∀ t ∈ c.tasks, t = TaskPhase.dispatched → c.st.initialized = true) := by
  have hinv : SrvInv c := by
    induction h with
    | refl => exact srvInv_init n
    | tail hab hbc ih => exact srvInv_step hbc ih
  obtain ⟨hA, _, _, hD, _⟩ := hinv
  refine ⟨?_, hD⟩
  rw [hA]
  split <;> omega

/-- Witness for C10: a concrete interleaving of two calls - the first creates
the promise, the second awaits the same promise, initialization completes, the
first call dispatches - is reachable, started one initialization, and every
dispatched task ran after initialization completed. -/
theorem ensureInitialized_at_most_once_witness :
    srvD.st.startCount ≤ 1
    ∧ (∀ t ∈ srvD.tasks, t = TaskPhase.dispatched → srvD.st.initialized = true) := by
  have s1 : SrvStep (srvInit 2) srvA := SrvStep.startInit (srvInit 2) 0 rfl rfl rfl
  have s2 : SrvStep srvA srvB := SrvStep.awaitExisting srvA 1 rfl rfl rfl
  have s3 : SrvStep srvB srvC := SrvStep.initCompletes srvB rfl rfl
  have s4 : SrvStep srvC srvD := SrvStep.wake srvC 0 rfl rfl
  exact ensureInitialized_at_most_once 2 srvD
    (Relation.ReflTransGen.tail (Relation.ReflTransGen.tail (Relation.ReflTransGen.tail
      (Relation.ReflTransGen.tail Relation.ReflTransGen.refl s1) s2) s3) s4)
